import Mathlib

/-!
Verification of a Code 128 (Set B) encoder / SVG renderer and of a
horizontal-bounds / crop module for 4-byte-per-pixel buffers, as a shallow
embedding.  Strings of the source are Lean `String`s; JS numbers that are
used as integers are `Int` (or `Nat` where the source guarantees
nonnegativity); byte buffers (`Uint8Array` views over `ArrayBuffer`) are
`List Nat`, with out-of-range reads modelled by `List.getD _ 0` (an
out-of-range typed-array read yields `undefined`, which fails every
comparison used by the scanning predicate, exactly as a 0 alpha byte does).
Fallible functions return `Except`.
-/

namespace Code128

/-! ## Encoder: patterns table, validation, codes, modules -/

/-- Patterns table: 107 entries (0..106), each a sequence of 6 (or 7 for
STOP) module widths. -/
def CODE128_PATTERNS : List String := [
  "212222","222122","222221","121223","121322","131222","122213","122312","132212","221213",
  "221312","231212","112232","122132","122231","113222","123122","123221","223211","221132",
  "221231","213212","223112","312131","311222","321122","321221","312212","322112","322211",
  "212123","212321","232121","111323","131123","131321","112313","132113","132311","211313",
  "231113","231311","112133","112331","132131","113123","113321","133121","313121","211331",
  "231131","213113","213311","213131","311123","311321","331121","312113","312311","332111",
  "314111","221411","431111","111224","111422","121124","121421","141122","141221","112214",
  "112412","122114","122411","142112","142211","241211","221114","413111","241112","134111",
  "111242","121142","121241","114212","124112","124211","411212","421112","421211","212141",
  "214121","412121","111143","111341","131141","114113","114311","411113","411311","113141",
  "114131","311141","411131","211412","211214","211232","2331112"
]

def START_CODE_B : Int := 104

def STOP_CODE : Int := 106

/-- UTF-16-style code units of the input text (`charCodeAt`); for the
Code 128-B domain [32,126] these coincide with `Char.toNat`. -/
def charCodes (s : String) : List Nat := s.data.map Char.toNat

/-- Error values raised by the encoder (`throw new Error(...)` sites),
carrying the data the source interpolates into the message. -/
inductive EncodeError where
  | unsupportedChar (index : Nat) (code : Nat)
  | patternNotFound (code : Int)
deriving DecidableEq, Repr

/-- Loop body of `assertCodeSetBCompatible`: walk the characters with their
index, failing at the first code point outside [32,126]. -/
def assertAux : List Nat → Nat → Except EncodeError Unit
  | [], _ => .ok ()
  | c :: rest, i =>
      if c < 32 ∨ 126 < c then .error (.unsupportedChar i c)
      else assertAux rest (i + 1)

def assertCodeSetBCompatible (s : String) : Except EncodeError Unit :=
  assertAux (charCodes s) 0

/-- Checksum accumulator loop of `computeCodesForSetB`:
`checksum += (charCodeAt(i) - 32) * (i + 1)` starting from 104.
JS `%` on the result is truncated remainder, i.e. `Int.tmod`. -/
def checksumLoop : List Nat → Nat → Int → Int
  | [], _, acc => acc
  | c :: rest, i, acc => checksumLoop rest (i + 1) (acc + ((c : Int) - 32) * ((i : Int) + 1))

/-- Codes produced for set B: START-B, one code per character
(`charCodeAt(i) - 32`), the modulo-103 checksum, then STOP. -/
def computeCodesForSetB (s : String) : List Int :=
  (START_CODE_B :: (charCodes s).map (fun (c : Nat) => (c : Int) - 32))
    ++ [(checksumLoop (charCodes s) 0 START_CODE_B).tmod 103, STOP_CODE]

/-- Value of one pattern digit character (`Number(pattern[i])`). -/
def digitVal (c : Char) : Nat := c.toNat - 48

/-- Pattern lookup `CODE128_PATTERNS[code]`; `none` when the index is
outside the table (JS `undefined`). -/
def lookupPattern (code : Int) : Option String :=
  if code < 0 then none else CODE128_PATTERNS.get? code.toNat

/-- Expansion of codes into module widths; throws `patternNotFound` when the
lookup yields a falsy value (`undefined` or the empty string). -/
def codesToModules : List Int → Except EncodeError (List Nat)
  | [] => .ok []
  | code :: rest =>
      match lookupPattern code with
      | none => .error (.patternNotFound code)
      | some p =>
          if p.data.length = 0 then .error (.patternNotFound code)
          else do
            let ms ← codesToModules rest
            .ok (p.data.map digitVal ++ ms)

def encodeCode128BToModules (s : String) : Except EncodeError (List Nat) := do
  assertCodeSetBCompatible s
  codesToModules (computeCodesForSetB s)

/-! ## SVG renderer -/

/-- Render options; field defaults are the destructuring defaults of the
source. -/
structure Code128RenderOptions where
  moduleWidth : Int := 2
  height : Int := 60
  quietZone : Int := 10
  background : String := "#ffffff"
  barColor : String := "#000000"
  displayValue : Bool := false
  fontFamily : String := "monospace"
  fontSize : Int := 14
  textMargin : Int := 4
deriving Repr

/-- Global single-character replacement, the semantics of
`value.replace(/c/g, r)`. -/
def replaceChar (c : Char) (r : List Char) (s : List Char) : List Char :=
  s.flatMap (fun x => if x = c then r else [x])

/-- Chained replacement of the five XML special characters, innermost
applied first (`&` before `<`, `>`, `"`, `'`, as in the source's chain). -/
def escapeXml (value : String) : String :=
  ⟨replaceChar (Char.ofNat 39) ("&apos;").data
    (replaceChar '"' ("&quot;").data
      (replaceChar '>' ("&gt;").data
        (replaceChar '<' ("&lt;").data
          (replaceChar '&' ("&amp;").data value.data))))⟩

/-- Bar-emitting loop: walk the modules left to right carrying the current
x position and the bar/space parity, emitting a `rect` for bar modules. -/
def svgBarsLoop (mw barsHeight : Int) (barColor : String) : List Nat → Int → Bool → String
  | [], _, _ => ("")
  | w :: rest, x, isBar =>
      let wPx := (w : Int) * mw
      (if isBar then
        ("<rect x=\"") ++ toString x ++ ("\" y=\"0\" width=\"") ++ toString wPx
          ++ ("\" height=\"") ++ toString barsHeight ++ ("\" fill=\"") ++ barColor ++ ("\"/>")
      else (""))
      ++ svgBarsLoop mw barsHeight barColor rest (x + wPx) (!isBar)

def renderCode128BToSvg (text : String) (options : Code128RenderOptions) : Except EncodeError String :=
  match encodeCode128BToModules text with
  | .error e => .error e
  | .ok modules =>
      let totalModules : Int :=
        modules.foldl (fun (acc : Int) (m : Nat) => acc + (m : Int)) 0 + options.quietZone * 2
      let barsHeight : Int :=
        if options.displayValue then max 0 (options.height - options.fontSize - options.textMargin)
        else options.height
      let widthPx : Int := totalModules * options.moduleWidth
      let heightPx : Int := options.height
      let svgBars : String :=
        svgBarsLoop options.moduleWidth barsHeight options.barColor modules
          (options.quietZone * options.moduleWidth) true
      let svgText : String :=
        if options.displayValue then
          let textY : ℚ := (barsHeight : ℚ) + (options.textMargin : ℚ) + (options.fontSize : ℚ) * (4 / 5)
          let textX : ℚ := (widthPx : ℚ) / 2
          ("<text x=\"") ++ toString textX ++ ("\" y=\"") ++ toString textY
            ++ ("\" text-anchor=\"middle\" font-family=\"") ++ escapeXml options.fontFamily
            ++ ("\" font-size=\"") ++ toString options.fontSize ++ ("\">")
            ++ escapeXml text ++ ("</text>")
        else ("")
      .ok (("<?xml version=\"1.0\" encoding=\"UTF-8\"?>\n")
        ++ ("<svg xmlns=\"http://www.w3.org/2000/svg\" width=\"") ++ toString widthPx
        ++ ("\" height=\"") ++ toString heightPx ++ ("\" viewBox=\"0 0 ") ++ toString widthPx
        ++ (" ") ++ toString heightPx ++ ("\" shape-rendering=\"crispEdges\">")
        ++ ("<rect x=\"0\" y=\"0\" width=\"100%\" height=\"100%\" fill=\"") ++ options.background
        ++ ("\"/>") ++ svgBars ++ svgText ++ ("</svg>"))

/-! ## Substring search (used to state facts about the produced markup) -/

/-- Test whether `pat` occurs at the head of `s`. -/
def strMatchAt : List Char → List Char → Bool
  | [], _ => true
  | _ :: _, [] => false
  | p :: ps, c :: cs => p = c && strMatchAt ps cs

/-- Test whether `pat` occurs anywhere in `s`. -/
def listHas (pat : List Char) : List Char → Bool
  | [] => strMatchAt pat []
  | c :: cs => strMatchAt pat (c :: cs) || listHas pat cs

/-- Substring test on strings. -/
def strHas (pat s : String) : Bool := listHas pat.data s.data

/-! ## Trim module: horizontal bounds scan and crop -/

inductive PixelOrder where
  | RGBA
  | BGRA
deriving DecidableEq, Repr

/-- Scan options with the source's destructuring defaults; the double
literal `0.02` is modelled by the exact rational `1/50` (for every height
below 2^53 the two give the same `max(1, floor(height*ratio))`). -/
structure ScanOptions where
  bytesPerPixel : Nat := 4
  pixelOrder : PixelOrder := .RGBA
  blackThreshold : Int := 64
  minCoverageRatio : ℚ := 1 / 50
  sampleStep : Nat := 1
deriving Repr

structure Bounds where
  left : Int
  right : Int
deriving DecidableEq, Repr

/-- Per-pixel ink test at byte index `idx`: alpha at least 16 and integer
luminance `(54r + 183g + 19b) >> 8` at most the threshold.  Out-of-range
byte reads (JS `undefined`) make the conjunction false, as does the 0
returned by `getD`. -/
def isBlackAtIndex (view : List Nat) (order : PixelOrder) (blackThreshold : Int) (idx : Nat) : Bool :=
  let r := match order with
    | .BGRA => view.getD (idx + 2) 0
    | .RGBA => view.getD idx 0
  let g := view.getD (idx + 1) 0
  let b := match order with
    | .BGRA => view.getD idx 0
    | .RGBA => view.getD (idx + 2) 0
  let a := view.getD (idx + 3) 0
  let luminance := (54 * r + 183 * g + 19 * b) >>> 8
  decide (16 ≤ a ∧ (luminance : Int) ≤ blackThreshold)

/-- Row indices `0, step, 2·step, …` below `height` visited by the
per-column loop (defined for positive `step`; the source loops forever when
`sampleStep ≤ 0`). -/
def sampledRows (height step : Nat) : List Nat :=
  (List.range ((height + step - 1) / step)).map (fun k => k * step)

/-- Number of inked pixels met while scanning column `col` (the source
short-circuits the count at `minHits`, which does not change whether
`minHits` is reached). -/
def columnHits (view : List Nat) (width height : Nat) (opts : ScanOptions) (col : Nat) : Nat :=
  ((sampledRows height opts.sampleStep).filter
    (fun y => isBlackAtIndex view opts.pixelOrder opts.blackThreshold
      ((y * width + col) * opts.bytesPerPixel))).length

def minHitsFor (height : Nat) (opts : ScanOptions) : Nat :=
  max 1 (Int.toNat ⌊(height : ℚ) * (max 0 (min 1 opts.minCoverageRatio))⌋)

/-- Column predicate: the column reaches `minHits` inked samples. -/
def columnInked (view : List Nat) (width height : Nat) (opts : ScanOptions) (col : Nat) : Bool :=
  minHitsFor height opts ≤ columnHits view width height opts col

/-- Right-to-left scan from `r` down to `left`, the source's second loop;
`none` corresponds to the loop running off the lower end (after which the
caller's `right < left` / `right < 0` test fires either way). -/
def findDown (p : Nat → Bool) (left : Nat) : Nat → Option Nat
  | 0 => if 0 < left then none else if p 0 then some 0 else none
  | r + 1 =>
      if r + 1 < left then none
      else if p (r + 1) then some (r + 1)
      else findDown p left r

/-- Both directional scans and the sentinel fallback, on the already
guarded positive dimensions. -/
def boundsScanCore (buffer : List Nat) (W H : Nat) (opts : ScanOptions) : Bounds :=
  let inked : Nat → Bool := columnInked buffer W H opts
  let left : Nat := ((List.range W).find? inked).getD W
  let right : Int := (findDown inked left (W - 1)).elim ((left : Int) - 1) (fun r => (r : Int))
  if W ≤ left ∨ right < 0 ∨ right < (left : Int) then
    { left := 0, right := (W : Int) - 1 }
  else
    { left := (left : Int), right := right }

/-- Bounds scan.  Errors mirror the source's `throw` statements (the
`ArrayBuffer` type guard is outside a byte-level model); the `width <= 0 ||
height <= 0` guard returns `{0, 0}`. -/
def computeHorizontalBounds (buffer : List Nat) (width height : Int) (opts : ScanOptions) :
    Except String Bounds :=
  if opts.bytesPerPixel ≠ 4 then
    .error ("Only 4 bytes-per-pixel buffers (RGBA/BGRA) are supported")
  else if width ≤ 0 ∨ height ≤ 0 then .ok { left := 0, right := 0 }
  else .ok (boundsScanCore buffer width.toNat height.toNat opts)

structure CropResult where
  buffer : List Nat
  width : Nat
  height : Nat
deriving DecidableEq, Repr

/-- Horizontal crop: `cropWidth = max(0, right-left+1)` (natural
subtraction); the degenerate guard returns the freshly allocated,
zero-filled output buffer; otherwise each destination row is the source
row's byte span, with `getD _ 0` reproducing `subarray`'s clamping (the
clamped tail of a row stays zero in the output). -/
def cropHorizontalBuffer (buffer : List Nat) (width height left right bytesPerPixel : Nat) :
    CropResult :=
  let cropWidth := right + 1 - left
  if cropWidth = 0 ∨ width = 0 ∨ height = 0 then
    { buffer := List.replicate (cropWidth * height * bytesPerPixel) 0
      width := cropWidth
      height := height }
  else
    { buffer := (List.range height).flatMap
        (fun y => (List.range (cropWidth * bytesPerPixel)).map
          (fun j => buffer.getD ((y * width + left) * bytesPerPixel + j) 0))
      width := cropWidth
      height := height }

/-! ## Row-block lemmas for the crop buffer -/

lemma flatMapBlocks_length (g : Nat → Nat → Nat) (n m : Nat) :
    ((List.range n).flatMap (fun y => (List.range m).map (g y))).length = n * m := by
  rw [List.length_flatMap]
  have hmap : (List.map (List.length ∘ fun y => (List.range m).map (g y)) (List.range n))
      = List.map (fun _ => m) (List.range n) :=
    List.map_congr_left (fun a _ => by simp [Function.comp])
  rw [hmap]
  simp

lemma flatMapBlocks_getD (g : Nat → Nat → Nat) (n m y j : Nat) (hy : y < n) (hj : j < m) :
    ((List.range n).flatMap (fun y => (List.range m).map (g y))).getD (y * m + j) 0 = g y j := by
  induction n with
  | zero => omega
  | succ n ih =>
      rw [List.range_succ, List.flatMap_append]
      rcases Nat.lt_or_ge y n with h | h
      · rw [List.getD_append]
        · exact ih h
        · rw [flatMapBlocks_length]
          have hle : (y + 1) * m ≤ n * m := Nat.mul_le_mul_right m h
          calc y * m + j < y * m + m := by omega
            _ = (y + 1) * m := by ring
            _ ≤ n * m := hle
      · have hyn : y = n := by omega
        subst hyn
        have hlen2 : ((List.range y).flatMap (fun y => (List.range m).map (g y))).length
            = y * m := flatMapBlocks_length g y m
        rw [List.getD_append_right _ _ _ _ (by rw [hlen2]; omega)]
        rw [hlen2]
        have hsub : y * m + j - y * m = j := by omega
        rw [hsub]
        simp only [List.flatMap_cons, List.flatMap_nil, List.append_nil]
        rw [List.getD_eq_getElem _ _ (by simpa using hj), List.getElem_map,
          List.getElem_range]

lemma flatMapBlocks_full (buffer : List Nat) (n m : Nat) (hlen : buffer.length = n * m) :
    (List.range n).flatMap
      (fun y => (List.range m).map (fun j => buffer.getD (y * m + j) 0)) = buffer := by
  apply List.ext_getElem
  · rw [flatMapBlocks_length, hlen]
  · intro i h1 h2
    have hiL : i < n * m := by rw [← hlen]; exact h2
    have hm : 0 < m := by
      rcases Nat.eq_zero_or_pos m with h0 | h0
      · subst h0; omega
      · exact h0
    have hdiv : i / m < n := (Nat.div_lt_iff_lt_mul hm).mpr hiL
    have hmod : i % m < m := Nat.mod_lt _ hm
    have hkey := flatMapBlocks_getD
      (fun y j => buffer.getD (y * m + j) 0) n m (i / m) (i % m) hdiv hmod
    have hidx : i / m * m + i % m = i := by
      rw [Nat.mul_comm (i / m) m]
      exact Nat.div_add_mod i m
    rw [← List.getD_eq_getElem _ 0 h1, ← List.getD_eq_getElem _ 0 h2]
    simpa [hidx] using hkey

/-! ## Scan lemmas -/

lemma findDown_none_of_lt (p : Nat → Bool) (left r : Nat) (h : r < left) :
    findDown p left r = none := by
  cases r with
  | zero => simp [findDown, h]
  | succ r => simp [findDown, h]

lemma findDown_some (p : Nat → Bool) (left r m : Nat) (h : findDown p left r = some m) :
    left ≤ m ∧ m ≤ r ∧ p m = true := by
  induction r with
  | zero =>
      rw [findDown] at h
      by_cases h0 : 0 < left
      · simp [h0] at h
      · simp [h0] at h
        rcases h with ⟨hp, hm⟩
        subst hm
        exact ⟨by omega, le_refl _, hp⟩
  | succ r ih =>
      rw [findDown] at h
      by_cases hlt : r + 1 < left
      · simp [hlt] at h
      · rw [if_neg hlt] at h
        by_cases hp : p (r + 1) = true
        · rw [if_pos hp] at h
          cases h
          exact ⟨by omega, le_refl _, hp⟩
        · rw [if_neg hp] at h
          have := ih h
          exact ⟨this.1, by omega, this.2.2⟩

lemma findDown_some_of_base (p : Nat → Bool) (left r : Nat) (hlr : left ≤ r)
    (hp : p left = true) : ∃ m, findDown p left r = some m ∧ left ≤ m ∧ m ≤ r := by
  induction r with
  | zero =>
      have h0 : left = 0 := by omega
      subst h0
      exact ⟨0, by simp [findDown, hp], le_refl _, le_refl _⟩
  | succ r ih =>
      rw [findDown]
      rw [if_neg (by omega)]
      by_cases hpr : p (r + 1) = true
      · exact ⟨r + 1, by rw [if_pos hpr], by omega, le_refl _⟩
      · rw [if_neg hpr]
        by_cases hl : left = r + 1
        · exact absurd hp (hl ▸ hpr)
        · obtain ⟨m, hm, h1, h2⟩ := ih (by omega)
          exact ⟨m, hm, h1, by omega⟩

lemma findDown_eq_some_of_max (p : Nat → Bool) (left r m : Nat) (hlm : left ≤ m)
    (hmr : m ≤ r) (hp : p m = true) (hmax : ∀ k, m < k → k ≤ r → p k = false) :
    findDown p left r = some m := by
  induction r with
  | zero =>
      have h0 : m = 0 := by omega
      subst h0
      simp [findDown, hp, show ¬0 < left by omega]
  | succ r ih =>
      rw [findDown]
      rw [if_neg (by omega)]
      by_cases hm1 : m = r + 1
      · subst hm1
        rw [if_pos hp]
      · have hpr : p (r + 1) = false := hmax (r + 1) (by omega) (le_refl _)
        rw [if_neg (by simp [hpr])]
        exact ih (by omega) (fun k hk1 hk2 => hmax k hk1 (by omega))

lemma range_find?_eq_some (p : Nat → Bool) (n m : Nat) (hm : m < n) (hp : p m = true)
    (hmin : ∀ k < m, p k = false) : (List.range n).find? p = some m := by
  induction n with
  | zero => omega
  | succ n ih =>
      rw [List.range_succ, List.find?_append]
      by_cases hmn : m < n
      · rw [ih hmn]
        rfl
      · have hmeq : m = n := by omega
        subst hmeq
        have hnone : (List.range m).find? p = none := by
          rw [List.find?_eq_none]
          intro x hx
          simp only [List.mem_range] at hx
          simp [hmin x hx]
        rw [hnone]
        simp [List.find?, hp]

/-- Shared invariant of the core scan: on positive dimensions the result is
inside `[0, W-1]` with `left ≤ right`, and if no column is inked the result
is the full-width sentinel. -/
lemma boundsScanCore_inv (buffer : List Nat) (W H : Nat) (opts : ScanOptions) (hW : 0 < W) :
    (0 ≤ (boundsScanCore buffer W H opts).left
      ∧ (boundsScanCore buffer W H opts).left ≤ (boundsScanCore buffer W H opts).right
      ∧ (boundsScanCore buffer W H opts).right ≤ (W : Int) - 1)
    ∧ ((∀ col < W, columnInked buffer W H opts col = false)
        → boundsScanCore buffer W H opts = ⟨0, (W : Int) - 1⟩) := by
  simp only [boundsScanCore]
  cases hF : (List.range W).find? (columnInked buffer W H opts) with
  | none =>
      rw [findDown_none_of_lt _ _ _ (by simp [Option.getD]; omega)]
      simp only [Option.elim, Option.getD]
      rw [if_pos (Or.inl (le_refl _))]
      refine ⟨⟨?_, ?_, ?_⟩, fun _ => rfl⟩
      · simp
      · simp
        omega
      · simp
  | some l =>
      have hp : columnInked buffer W H opts l = true := List.find?_some hF
      have hlW : l < W := by
        have := List.mem_of_find?_eq_some hF
        simpa [List.mem_range] using this
      obtain ⟨m, hm, hlm, hmr⟩ :=
        findDown_some_of_base (columnInked buffer W H opts) l (W - 1) (by omega) hp
      simp only [Option.getD, hm, Option.elim]
      rw [if_neg (by omega)]
      constructor
      · refine ⟨?_, ?_, ?_⟩
        · simp
        · simp
          exact_mod_cast hlm
        · simp
          omega
      · intro hnone
        exact absurd hp (by simp [hnone l hlW])

lemma minHitsFor_pos (H : Nat) (opts : ScanOptions) : 1 ≤ minHitsFor H opts :=
  le_max_left 1 _

lemma minHitsFor_le (H : Nat) (opts : ScanOptions) (hH : 0 < H) : minHitsFor H opts ≤ H := by
  unfold minHitsFor
  have hcl : max 0 (min 1 opts.minCoverageRatio) ≤ (1 : ℚ) :=
    max_le (by norm_num) (min_le_left _ _)
  have hcl0 : (0 : ℚ) ≤ max 0 (min 1 opts.minCoverageRatio) := le_max_left _ _
  have hfl : ⌊(H : ℚ) * max 0 (min 1 opts.minCoverageRatio)⌋ ≤ (H : Int) := by
    calc ⌊(H : ℚ) * max 0 (min 1 opts.minCoverageRatio)⌋ ≤ ⌊((H : ℚ))⌋ :=
          Int.floor_le_floor (by nlinarith [Nat.cast_nonneg (α := ℚ) H])
      _ = (H : Int) := Int.floor_natCast H
  exact max_le hH (Int.toNat_le.mpr hfl)

lemma sampledRows_one (H : Nat) : sampledRows H 1 = List.range H := by
  unfold sampledRows
  simp

/-! ## Basic lemmas about the checksum loop -/

lemma checksumLoop_eq (l : List Nat) (i : Nat) (acc : Int) :
    checksumLoop l i acc
      = acc + ∑ k ∈ Finset.range l.length,
          ((l.getD k 0 : Int) - 32) * ((i : Int) + (k : Int) + 1) := by
  induction l generalizing i acc with
  | nil => simp [checksumLoop]
  | cons c rest ih =>
      rw [checksumLoop, ih]
      rw [List.length_cons, Finset.sum_range_succ']
      simp only [List.getD_cons_succ, List.getD_cons_zero]
      push_cast
      have hs : (∑ x ∈ Finset.range rest.length,
          ((rest.getD x 0 : Int) - 32) * ((i : Int) + ((x : Int) + 1) + 1))
          = ∑ x ∈ Finset.range rest.length,
            ((rest.getD x 0 : Int) - 32) * ((i : Int) + 1 + (x : Int) + 1) :=
        Finset.sum_congr rfl (fun x _ => by ring)
      rw [hs]
      ring

lemma checksum_nonneg (s : String) (hvalid : ∀ c ∈ charCodes s, 32 ≤ c ∧ c ≤ 126) :
    0 ≤ checksumLoop (charCodes s) 0 START_CODE_B := by
  rw [checksumLoop_eq]
  have hsum : 0 ≤ ∑ k ∈ Finset.range (charCodes s).length,
      (((charCodes s).getD k 0 : Int) - 32) * (((0 : Nat) : Int) + (k : Int) + 1) := by
    apply Finset.sum_nonneg
    intro k hk
    rw [Finset.mem_range] at hk
    have hmem : (charCodes s).getD k 0 ∈ charCodes s := by
      rw [List.getD_eq_getElem _ _ hk]
      exact List.getElem_mem hk
    have h32 := (hvalid _ hmem).1
    have hc : (32 : Int) ≤ ((charCodes s).getD k 0 : Int) := by exact_mod_cast h32
    exact mul_nonneg (by linarith) (by positivity)
  unfold START_CODE_B
  linarith

lemma checksum_closed (s : String) :
    checksumLoop (charCodes s) 0 START_CODE_B
      = 104 + ∑ k ∈ Finset.range (charCodes s).length,
          (((charCodes s).getD k 0 : Int) - 32) * ((k : Int) + 1) := by
  rw [checksumLoop_eq]
  unfold START_CODE_B
  congr 1
  exact Finset.sum_congr rfl (fun x _ => by push_cast; ring)

/-! ## Validation and pattern-lookup lemmas -/

lemma except_bind_error {ε β γ : Type} (e : ε) (f : β → Except ε γ) :
    (Except.error e >>= f) = Except.error e := rfl

lemma except_bind_ok {ε β γ : Type} (b : β) (f : β → Except ε γ) :
    (Except.ok b >>= f) = f b := rfl

lemma assertAux_ok_iff (l : List Nat) (i : Nat) :
    assertAux l i = .ok () ↔ ∀ c ∈ l, 32 ≤ c ∧ c ≤ 126 := by
  induction l generalizing i with
  | nil => simp [assertAux]
  | cons c rest ih =>
      by_cases hc : c < 32 ∨ 126 < c
      · rw [assertAux, if_pos hc]
        constructor
        · intro h
          exact absurd h (by simp)
        · intro hall
          exact absurd (hall c (List.mem_cons_self c rest)) (by omega)
      · rw [assertAux, if_neg hc, ih (i + 1)]
        constructor
        · intro h x hx
          rcases List.mem_cons.mp hx with hxc | hxr
          · subst hxc
            omega
          · exact h x hxr
        · exact fun h x hx => h x (List.mem_cons_of_mem c hx)

lemma assertAux_error_at (l : List Nat) (i k : Nat) (hk : k < l.length)
    (hbad : ¬(32 ≤ l.getD k 0 ∧ l.getD k 0 ≤ 126))
    (hmin : ∀ j < k, 32 ≤ l.getD j 0 ∧ l.getD j 0 ≤ 126) :
    assertAux l i = .error (.unsupportedChar (i + k) (l.getD k 0)) := by
  induction l generalizing i k with
  | nil => simp at hk
  | cons c rest ih =>
      cases k with
      | zero =>
          simp only [List.getD_cons_zero] at hbad ⊢
          rw [assertAux, if_pos (by omega), Nat.add_zero]
      | succ k =>
          have hc := hmin 0 (Nat.succ_pos k)
          simp only [List.getD_cons_zero] at hc
          rw [assertAux, if_neg (by omega)]
          simp only [List.getD_cons_succ] at hbad ⊢
          have hres := ih (i + 1) k (by simpa using Nat.lt_of_succ_lt_succ hk) hbad
            (fun j hj => by
              have := hmin (j + 1) (Nat.succ_lt_succ hj)
              simpa using this)
          rw [hres]
          have harith : i + 1 + k = i + (k + 1) := by omega
          rw [harith]

lemma lookupPattern_ok (code : Int) (h0 : 0 ≤ code) (h106 : code ≤ 106) :
    ∃ p, lookupPattern code = some p ∧ p.data.length ≠ 0 := by
  have hn : code.toNat ≤ 106 := by omega
  have key : ∀ k : Nat, k ≤ 106 →
      ((CODE128_PATTERNS.get? k).getD ("")).data.length ≠ 0
        ∧ (CODE128_PATTERNS.get? k).isSome = true := by decide
  obtain ⟨h1, h2⟩ := key code.toNat hn
  unfold lookupPattern
  rw [if_neg (by omega)]
  cases hp : CODE128_PATTERNS.get? code.toNat with
  | none => rw [hp] at h2; simp at h2
  | some p =>
      rw [hp] at h1
      exact ⟨p, rfl, by simpa using h1⟩

lemma codesToModules_ok (codes : List Int) (hall : ∀ c ∈ codes, 0 ≤ c ∧ c ≤ 106) :
    ∃ ms, codesToModules codes = .ok ms := by
  induction codes with
  | nil => exact ⟨[], rfl⟩
  | cons code rest ih =>
      obtain ⟨hc0, hc1⟩ := hall code (List.mem_cons_self code rest)
      obtain ⟨p, hp, hlen⟩ := lookupPattern_ok code hc0 hc1
      obtain ⟨ms, hms⟩ := ih (fun c hc => hall c (List.mem_cons_of_mem code hc))
      refine ⟨p.data.map digitVal ++ ms, ?_⟩
      have hlen2 : p.length ≠ 0 := hlen
      rw [codesToModules, hp]
      simp [hlen2, hms, except_bind_ok]

lemma computeCodes_range (s : String) (hvalid : ∀ c ∈ charCodes s, 32 ≤ c ∧ c ≤ 126) :
    ∀ code ∈ computeCodesForSetB s, 0 ≤ code ∧ code ≤ 106 := by
  intro code hcode
  have hnn := checksum_nonneg s hvalid
  unfold computeCodesForSetB at hcode
  rw [List.mem_append, List.mem_cons] at hcode
  rcases hcode with (hstart | hmap) | htail
  · rw [hstart]
    unfold START_CODE_B
    norm_num
  · rw [List.mem_map] at hmap
    obtain ⟨c, hc, hcode⟩ := hmap
    have := hvalid c hc
    subst hcode
    omega
  · rcases List.mem_cons.mp htail with hck | hstop
    · rw [hck, Int.tmod_eq_emod hnn (by norm_num)]
      have hlt := Int.emod_lt_of_pos (checksumLoop (charCodes s) 0 START_CODE_B)
        (b := 103) (by norm_num)
      have hge := Int.emod_nonneg (checksumLoop (charCodes s) 0 START_CODE_B)
        (show (103 : Int) ≠ 0 by norm_num)
      omega
    · rcases List.mem_cons.mp hstop with hs | hnil
      · rw [hs]
        unfold STOP_CODE
        norm_num
      · simp at hnil

/-- C8: `encodeCode128BToModules` succeeds exactly when every character's
code point lies in [32,126], and on the first violation it fails with an
error carrying the 0-based index and the code point of that character,
producing no partial result. -/
theorem encodeCode128BToModules_domain (s : String) :
    ((∃ ms, encodeCode128BToModules s = .ok ms) ↔ ∀ c ∈ charCodes s, 32 ≤ c ∧ c ≤ 126)
    ∧ ∀ i < (charCodes s).length,
        ¬(32 ≤ (charCodes s).getD i 0 ∧ (charCodes s).getD i 0 ≤ 126) →
        (∀ j < i, 32 ≤ (charCodes s).getD j 0 ∧ (charCodes s).getD j 0 ≤ 126) →
        encodeCode128BToModules s = .error (.unsupportedChar i ((charCodes s).getD i 0)) := by
  constructor
  · constructor
    · rintro ⟨ms, hms⟩
      cases hass : assertCodeSetBCompatible s with
      | ok u =>
          cases u
          exact (assertAux_ok_iff (charCodes s) 0).mp hass
      | error e =>
          rw [encodeCode128BToModules, hass, except_bind_error] at hms
          simp at hms
    · intro hvalid
      have hass : assertCodeSetBCompatible s = .ok () :=
        (assertAux_ok_iff (charCodes s) 0).mpr hvalid
      obtain ⟨ms, hms⟩ := codesToModules_ok _ (computeCodes_range s hvalid)
      refine ⟨ms, ?_⟩
      rw [encodeCode128BToModules, hass, except_bind_ok]
      exact hms
  · intro i hi hbad hmin
    have hass : assertCodeSetBCompatible s
        = .error (.unsupportedChar i ((charCodes s).getD i 0)) := by
      have := assertAux_error_at (charCodes s) 0 i hi hbad hmin
      rwa [Nat.zero_add] at this
    rw [encodeCode128BToModules, hass, except_bind_error]

theorem encodeCode128BToModules_domain_witness :
    encodeCode128BToModules ("\n") = .error (.unsupportedChar 0 10)
    ∧ ∃ ms, encodeCode128BToModules ("A") = .ok ms :=
  ⟨(encodeCode128BToModules_domain ("\n")).2 0 (by decide) (by decide)
      (fun j hj => absurd hj (by omega)),
    (encodeCode128BToModules_domain ("A")).1.mpr (by decide)⟩

/-! ## Substring lemmas -/

lemma strMatchAt_append_self (pat post : List Char) : strMatchAt pat (pat ++ post) = true := by
  induction pat with
  | nil => rfl
  | cons p ps ih => simp [strMatchAt, ih]

lemma listHas_of_matchAt (pat l : List Char) (h : strMatchAt pat l = true) :
    listHas pat l = true := by
  cases l with
  | nil => simpa [listHas] using h
  | cons c cs => simp [listHas, h]

lemma listHas_append_left (pat l r : List Char) (h : listHas pat r = true) :
    listHas pat (l ++ r) = true := by
  induction l with
  | nil => simpa using h
  | cons c cs ih => simp [listHas, ih]

lemma listHas_tail3 (a1 a2 a3 post : List Char) :
    listHas (a1 ++ (a2 ++ a3)) (a1 ++ (a2 ++ (a3 ++ post))) = true := by
  have h := listHas_of_matchAt _ _ (strMatchAt_append_self (a1 ++ (a2 ++ a3)) post)
  simpa [List.append_assoc] using h

lemma listHas_tail5 (a1 a2 a3 a4 a5 post : List Char) :
    listHas (a1 ++ (a2 ++ (a3 ++ (a4 ++ a5))))
      (a1 ++ (a2 ++ (a3 ++ (a4 ++ (a5 ++ post))))) = true := by
  have h := listHas_of_matchAt _ _
    (strMatchAt_append_self (a1 ++ (a2 ++ (a3 ++ (a4 ++ a5)))) post)
  simpa [List.append_assoc] using h

lemma foldl_add_intCast (l : List Nat) (init : Int) :
    l.foldl (fun (acc : Int) (m : Nat) => acc + (m : Int)) init = init + (l.sum : Int) := by
  induction l generalizing init with
  | nil => simp
  | cons c rest ih =>
      rw [List.foldl_cons, ih, List.sum_cons]
      push_cast
      ring

lemma mem_replaceChar (c : Char) (r s : List Char) (x : Char) (hx : x ∈ replaceChar c r s) :
    x ∈ r ∨ (x ∈ s ∧ x ≠ c) := by
  unfold replaceChar at hx
  rw [List.mem_flatMap] at hx
  obtain ⟨a, ha, hxa⟩ := hx
  by_cases hac : a = c
  · rw [if_pos hac] at hxa
    exact Or.inl hxa
  · rw [if_neg hac] at hxa
    simp only [List.mem_singleton] at hxa
    subst hxa
    exact Or.inr ⟨ha, hac⟩

lemma escapeXml_no_raw (s : String) (x : Char) (hx : x ∈ (escapeXml s).data) :
    x ≠ '<' ∧ x ≠ '>' ∧ x ≠ '"' ∧ x ≠ Char.ofNat 39 := by
  have hx0 : x ∈ replaceChar (Char.ofNat 39) ("&apos;").data
      (replaceChar '"' ("&quot;").data
        (replaceChar '>' ("&gt;").data
          (replaceChar '<' ("&lt;").data
            (replaceChar '&' ("&amp;").data s.data)))) := hx
  rcases mem_replaceChar _ _ _ _ hx0 with h | ⟨h1, hne39⟩
  · exact (by decide : ∀ y ∈ ("&apos;").data,
      y ≠ '<' ∧ y ≠ '>' ∧ y ≠ '"' ∧ y ≠ Char.ofNat 39) x h
  rcases mem_replaceChar _ _ _ _ h1 with h | ⟨h2, hne34⟩
  · exact (by decide : ∀ y ∈ ("&quot;").data,
      y ≠ '<' ∧ y ≠ '>' ∧ y ≠ '"' ∧ y ≠ Char.ofNat 39) x h
  rcases mem_replaceChar _ _ _ _ h2 with h | ⟨h3, hne62⟩
  · exact (by decide : ∀ y ∈ ("&gt;").data,
      y ≠ '<' ∧ y ≠ '>' ∧ y ≠ '"' ∧ y ≠ Char.ofNat 39) x h
  rcases mem_replaceChar _ _ _ _ h3 with h | ⟨h4, hne60⟩
  · exact (by decide : ∀ y ∈ ("&lt;").data,
      y ≠ '<' ∧ y ≠ '>' ∧ y ≠ '"' ∧ y ≠ Char.ofNat 39) x h
  exact ⟨hne60, hne62, hne34, hne39⟩

set_option maxRecDepth 100000 in
/-- C6 counterexample: with `background := "&"` the markup embeds the
background option verbatim — the raw substring `fill="&"` occurs while the
escaped form `&amp;` occurs nowhere — so not every literal text value
embedded in the markup is escaped, and the output is not well-formed XML
for this options value. -/
theorem renderCode128BToSvg_background_unescaped :
    strHas (("fill=\"&\""))
        ((renderCode128BToSvg ("A") { background := ("&") }).toOption.getD ("")) = true
    ∧ strHas (("&amp;"))
        ((renderCode128BToSvg ("A") { background := ("&") }).toOption.getD ("")) = false := by
  constructor
  · decide
  · decide

/-- C6 (amended): the renderer escapes the payload text and the font
family — both are embedded through `escapeXml`, whose output never contains
a raw `<`, `>`, `"` or `'` — but the `background` and `barColor` options
are embedded verbatim without escaping, so well-formedness is guaranteed
regardless of the barcode payload but not of the color option strings. -/
theorem renderCode128BToSvg_escapes (text : String) (opts : Code128RenderOptions) :
    (∀ x ∈ (escapeXml text).data, x ≠ '<' ∧ x ≠ '>' ∧ x ≠ '"' ∧ x ≠ Char.ofNat 39)
    ∧ (opts.displayValue = true →
        ∀ out, renderCode128BToSvg text opts = .ok out →
          strHas (("\">") ++ escapeXml text ++ ("</text>")) out = true
          ∧ strHas (("\" text-anchor=\"middle\" font-family=\"")
              ++ escapeXml opts.fontFamily ++ ("\" font-size=\"")) out = true) := by
  constructor
  · exact fun x hx => escapeXml_no_raw text x hx
  · intro hdv out hout
    cases henc : encodeCode128BToModules text with
    | error e =>
        unfold renderCode128BToSvg at hout
        rw [henc] at hout
        simp at hout
    | ok ms =>
        unfold renderCode128BToSvg at hout
        rw [henc] at hout
        simp only [hdv, if_true] at hout
        have hbig := hout.symm
        rw [Except.ok.injEq] at hbig
        subst hbig
        constructor
        · unfold strHas
          simp only [String.data_append, List.append_assoc]
          repeat
            first
              | exact listHas_tail3 _ _ _ _
              | apply listHas_append_left
        · unfold strHas
          simp only [String.data_append, List.append_assoc]
          repeat
            first
              | exact listHas_tail3 _ _ _ _
              | apply listHas_append_left

set_option maxRecDepth 100000 in
theorem renderCode128BToSvg_escapes_witness :
    ((Char.ofNat 120) ≠ '<' ∧ (Char.ofNat 120) ≠ '>' ∧ (Char.ofNat 120) ≠ '"'
        ∧ (Char.ofNat 120) ≠ Char.ofNat 39)
    ∧ (strHas (("\">") ++ escapeXml ("A") ++ ("</text>"))
          ((renderCode128BToSvg ("A") { displayValue := true }).toOption.getD ("")) = true
        ∧ strHas (("\" text-anchor=\"middle\" font-family=\"")
            ++ escapeXml ("monospace") ++ ("\" font-size=\""))
          ((renderCode128BToSvg ("A") { displayValue := true }).toOption.getD ("")) = true) :=
  ⟨(renderCode128BToSvg_escapes ("x") {}).1 (Char.ofNat 120) (by decide),
   (renderCode128BToSvg_escapes ("A") { displayValue := true }).2 rfl
     ((renderCode128BToSvg ("A") { displayValue := true }).toOption.getD ("")) rfl⟩

/-- C9: the width attribute declared by the produced markup is exactly
`(sum of the expanded module sequence + 2·quietZone) · moduleWidth`, and
the declared height is exactly the `height` option. -/
theorem renderCode128BToSvg_declaredDims (text : String) (opts : Code128RenderOptions)
    (ms : List Nat) (henc : encodeCode128BToModules text = .ok ms) :
    ∃ out, renderCode128BToSvg text opts = .ok out
      ∧ strHas (("<svg xmlns=\"http://www.w3.org/2000/svg\" width=\"")
          ++ toString (((ms.sum : Int) + 2 * opts.quietZone) * opts.moduleWidth)
          ++ ("\" height=\"") ++ toString opts.height ++ ("\" viewBox=\"0 0 ")) out = true := by
  have hw : (List.foldl (fun (acc : Int) (m : Nat) => acc + (m : Int)) 0 ms
      + opts.quietZone * 2) * opts.moduleWidth
      = ((ms.sum : Int) + 2 * opts.quietZone) * opts.moduleWidth := by
    rw [foldl_add_intCast]
    ring
  unfold renderCode128BToSvg
  rw [henc]
  refine ⟨_, rfl, ?_⟩
  unfold strHas
  simp only [String.data_append, List.append_assoc]
  rw [hw]
  apply listHas_append_left
  exact listHas_tail5 _ _ _ _ _ _

theorem renderCode128BToSvg_declaredDims_witness :
    ∃ out, renderCode128BToSvg ("A") {} = .ok out
      ∧ strHas (("<svg xmlns=\"http://www.w3.org/2000/svg\" width=\"")
          ++ toString (((([2, 1, 1, 2, 1, 4, 1, 1, 1, 3, 2, 3, 1, 3, 1, 1, 2, 3,
                2, 3, 3, 1, 1, 1, 2] : List Nat).sum : Int)
              + 2 * ({} : Code128RenderOptions).quietZone)
            * ({} : Code128RenderOptions).moduleWidth)
          ++ ("\" height=\"") ++ toString ({} : Code128RenderOptions).height
          ++ ("\" viewBox=\"0 0 ")) out = true :=
  renderCode128BToSvg_declaredDims ("A") {}
    [2, 1, 1, 2, 1, 4, 1, 1, 1, 3, 2, 3, 1, 3, 1, 1, 2, 3, 2, 3, 3, 1, 1, 1, 2] rfl

/-- C1: for a string of characters with code points in [32,126], the code
sequence before pattern expansion is START-B (104), then `charCodeAt(i)-32`
per character in order, then the checksum
`(104 + Σ (charCodeAt(i)-32)·(i+1)) mod 103`, then STOP (106); hence its
length is n+3, its first code is 104, its last code is 106, and the
checksum lies in [0,102]. -/
theorem computeCodesForSetB_spec (s : String)
    (hvalid : ∀ c ∈ charCodes s, 32 ≤ c ∧ c ≤ 126) :
    computeCodesForSetB s
      = 104 :: (((charCodes s).map (fun (c : Nat) => (c : Int) - 32))
          ++ [(104 + ∑ k ∈ Finset.range (charCodes s).length,
                (((charCodes s).getD k 0 : Int) - 32) * ((k : Int) + 1)) % 103, 106])
    ∧ (computeCodesForSetB s).length = (charCodes s).length + 3
    ∧ (computeCodesForSetB s).head? = some 104
    ∧ (computeCodesForSetB s).getLast? = some 106
    ∧ 0 ≤ (104 + ∑ k ∈ Finset.range (charCodes s).length,
            (((charCodes s).getD k 0 : Int) - 32) * ((k : Int) + 1)) % 103
    ∧ (104 + ∑ k ∈ Finset.range (charCodes s).length,
            (((charCodes s).getD k 0 : Int) - 32) * ((k : Int) + 1)) % 103 ≤ 102 := by
  have hacc := checksum_closed s
  have hnn := checksum_nonneg s hvalid
  have htm : (checksumLoop (charCodes s) 0 START_CODE_B).tmod 103
      = (104 + ∑ k ∈ Finset.range (charCodes s).length,
          (((charCodes s).getD k 0 : Int) - 32) * ((k : Int) + 1)) % 103 := by
    rw [Int.tmod_eq_emod hnn (by norm_num), hacc]
  refine ⟨?_, ?_, ?_, ?_, ?_, ?_⟩
  · unfold computeCodesForSetB
    rw [htm]
    simp [START_CODE_B, STOP_CODE]
  · unfold computeCodesForSetB
    rw [List.length_append, List.length_cons, List.length_map, List.length_cons,
      List.length_cons, List.length_nil]
  · simp [computeCodesForSetB, START_CODE_B]
  · unfold computeCodesForSetB
    rw [show [(checksumLoop (charCodes s) 0 START_CODE_B).tmod 103, STOP_CODE]
          = [(checksumLoop (charCodes s) 0 START_CODE_B).tmod 103] ++ [STOP_CODE] from rfl,
        ← List.append_assoc, List.getLast?_concat]
    rfl
  · exact Int.emod_nonneg _ (by norm_num)
  · have hlt := Int.emod_lt_of_pos
      (104 + ∑ k ∈ Finset.range (charCodes s).length,
        (((charCodes s).getD k 0 : Int) - 32) * ((k : Int) + 1)) (b := 103) (by norm_num)
    linarith

/-- C2: for a `w×h` 4-byte-per-pixel source buffer and inclusive bounds
`0 ≤ L ≤ R < w`, the crop has width `R−L+1`, height `h`, a tightly packed
buffer of `(R−L+1)·h·4` bytes, and row `y` equals byte-for-byte the source
byte span `[(y·w+L)·4, (y·w+R+1)·4)` at row stride `(R−L+1)·4`. -/
theorem cropHorizontalBuffer_spec (buffer : List Nat) (w h L R : Nat)
    (hbuf : buffer.length = w * h * 4) (hLR : L ≤ R) (hRw : R < w) :
    (cropHorizontalBuffer buffer w h L R 4).width = R - L + 1
    ∧ (cropHorizontalBuffer buffer w h L R 4).height = h
    ∧ (cropHorizontalBuffer buffer w h L R 4).buffer.length = (R - L + 1) * h * 4
    ∧ ∀ y < h, ∀ j < (R - L + 1) * 4,
        (cropHorizontalBuffer buffer w h L R 4).buffer.getD (y * ((R - L + 1) * 4) + j) 0
          = buffer.getD ((y * w + L) * 4 + j) 0 := by
  have hcw : R + 1 - L = R - L + 1 := by omega
  by_cases hh : h = 0
  · subst hh
    simp only [cropHorizontalBuffer]
    rw [if_pos (show R + 1 - L = 0 ∨ w = 0 ∨ True from Or.inr (Or.inr trivial)), hcw]
    refine ⟨rfl, rfl, by simp, by omega⟩
  · have hcond : ¬(R + 1 - L = 0 ∨ w = 0 ∨ h = 0) := by omega
    simp only [cropHorizontalBuffer]
    rw [if_neg hcond, hcw]
    refine ⟨rfl, rfl, ?_, ?_⟩
    · rw [flatMapBlocks_length]
      ring
    · intro y hy j hj
      exact flatMapBlocks_getD
        (fun y j => buffer.getD ((y * w + L) * 4 + j) 0) h ((R - L + 1) * 4) y j hy hj

theorem cropHorizontalBuffer_spec_witness :
    ([1, 2, 3, 4, 5, 6, 7, 8] : List Nat).length = 2 * 1 * 4
    ∧ (cropHorizontalBuffer [1, 2, 3, 4, 5, 6, 7, 8] 2 1 0 0 4).width = 0 - 0 + 1
    ∧ (cropHorizontalBuffer [1, 2, 3, 4, 5, 6, 7, 8] 2 1 0 0 4).height = 1 :=
  ⟨by decide,
   (cropHorizontalBuffer_spec [1, 2, 3, 4, 5, 6, 7, 8] 2 1 0 0 (by decide) (by decide)
      (by decide)).1,
   (cropHorizontalBuffer_spec [1, 2, 3, 4, 5, 6, 7, 8] 2 1 0 0 (by decide) (by decide)
      (by decide)).2.1⟩

/-- C4: on any 4-byte-per-pixel buffer with positive dimensions (and a
positive sample step, without which the source loops forever), the scan
returns bounds with `0 ≤ left ≤ right ≤ width−1`, and returns the
full-width sentinel `{0, width−1}` exactly when no column is inked. -/
theorem computeHorizontalBounds_invariant (buffer : List Nat) (width height : Int)
    (opts : ScanOptions) (hbpp : opts.bytesPerPixel = 4) (_hstep : 1 ≤ opts.sampleStep)
    (hw : 0 < width) (hh : 0 < height) :
    ∃ b : Bounds, computeHorizontalBounds buffer width height opts = .ok b
      ∧ 0 ≤ b.left ∧ b.left ≤ b.right ∧ b.right ≤ width - 1
      ∧ ((∀ col < width.toNat, columnInked buffer width.toNat height.toNat opts col = false)
          → b = ⟨0, width - 1⟩) := by
  have hWpos : 0 < width.toNat := by omega
  have hcast : ((width.toNat : Int)) = width := Int.toNat_of_nonneg (by omega)
  obtain ⟨⟨h1, h2, h3⟩, h4⟩ := boundsScanCore_inv buffer width.toNat height.toNat opts hWpos
  refine ⟨boundsScanCore buffer width.toNat height.toNat opts, ?_, h1, h2, ?_, ?_⟩
  · unfold computeHorizontalBounds
    rw [if_neg (by simp [hbpp]), if_neg (by omega)]
  · omega
  · intro hcol
    rw [h4 hcol, hcast]

theorem computeHorizontalBounds_invariant_witness :
    ∃ b : Bounds, computeHorizontalBounds [] 1 1 {} = .ok b ∧ 0 ≤ b.left ∧ b.left ≤ b.right := by
  obtain ⟨b, hok, h1, h2, _⟩ :=
    computeHorizontalBounds_invariant [] 1 1 {} rfl (by decide) (by decide) (by decide)
  exact ⟨b, hok, h1, h2⟩

/-- C3: on a buffer whose inked pixels are exactly the full-height columns
`L..R` (`0 ≤ L ≤ R < w`), the scan with default options (threshold 64,
coverage ratio 0.02, sample step 1) returns exactly `{left = L, right = R}`. -/
theorem computeHorizontalBounds_exactBounds (buffer : List Nat) (w h L R : Nat)
    (hw : 0 < w) (hh : 0 < h) (hLR : L ≤ R) (hRw : R < w)
    (hink : ∀ col < w, ∀ y < h,
      isBlackAtIndex buffer .RGBA 64 ((y * w + col) * 4) = decide (L ≤ col ∧ col ≤ R)) :
    computeHorizontalBounds buffer (w : Int) (h : Int) {} = .ok ⟨(L : Int), (R : Int)⟩ := by
  have htoW : ((w : Int)).toNat = w := by omega
  have htoH : ((h : Int)).toNat = h := by omega
  unfold computeHorizontalBounds
  rw [if_neg (by simp), if_neg (by omega), htoW, htoH]
  have hcol : ∀ col < w, columnInked buffer w h {} col = decide (L ≤ col ∧ col ≤ R) := by
    intro col hcolw
    unfold columnInked columnHits
    rw [show ({} : ScanOptions).sampleStep = 1 from rfl, sampledRows_one]
    rw [List.filter_congr
      (fun y hy => (hink col hcolw y (List.mem_range.mp hy) :
        isBlackAtIndex buffer ({} : ScanOptions).pixelOrder ({} : ScanOptions).blackThreshold
          ((y * w + col) * ({} : ScanOptions).bytesPerPixel) = decide (L ≤ col ∧ col ≤ R)))]
    by_cases hin : L ≤ col ∧ col ≤ R
    · have hd : (fun (_ : Nat) => decide (L ≤ col ∧ col ≤ R)) = fun _ => true :=
        funext (fun _ => decide_eq_true hin)
      rw [hd, List.filter_true, List.length_range, decide_eq_true hin,
        decide_eq_true (minHitsFor_le h {} hh)]
    · have hd : (fun (_ : Nat) => decide (L ≤ col ∧ col ≤ R)) = fun _ => false :=
        funext (fun _ => decide_eq_false hin)
      rw [hd, List.filter_false, List.length_nil, decide_eq_false hin,
        decide_eq_false (fun hle => by have := minHitsFor_pos h ({} : ScanOptions); omega)]
  have hfind : (List.range w).find? (columnInked buffer w h {}) = some L :=
    range_find?_eq_some _ w L (by omega)
      (by rw [hcol L (by omega)]; exact decide_eq_true ⟨le_refl L, hLR⟩)
      (fun k hk => by rw [hcol k (by omega)]; exact decide_eq_false (by omega))
  have hdown : findDown (columnInked buffer w h {}) L (w - 1) = some R :=
    findDown_eq_some_of_max _ L (w - 1) R hLR (by omega)
      (by rw [hcol R (by omega)]; exact decide_eq_true ⟨hLR, le_refl R⟩)
      (fun k hk1 hk2 => by rw [hcol k (by omega)]; exact decide_eq_false (by omega))
  simp only [boundsScanCore]
  rw [hfind]
  simp only [Option.getD]
  rw [hdown]
  simp only [Option.elim]
  rw [if_neg (by omega)]

theorem computeHorizontalBounds_exactBounds_witness :
    computeHorizontalBounds [255, 255, 255, 255, 0, 0, 0, 255, 255, 255, 255, 255] 3 1 {}
      = .ok ⟨1, 1⟩ :=
  computeHorizontalBounds_exactBounds [255, 255, 255, 255, 0, 0, 0, 255, 255, 255, 255, 255]
    3 1 1 1 (by decide) (by decide) (by decide) (by decide) (by decide)

/-- C10: when `width ≤ 0` or `height ≤ 0` the scan returns `{0, 0}` (and no
error), not the full-width sentinel; in every other case (positive
dimensions) both returned bounds are at most `width − 1`, so the empty-image
case is the only one whose bounds can exceed `width − 1`. -/
theorem computeHorizontalBounds_emptyDims (buffer : List Nat) (width height : Int)
    (opts : ScanOptions) (hbpp : opts.bytesPerPixel = 4) (_hstep : 1 ≤ opts.sampleStep) :
    ((width ≤ 0 ∨ height ≤ 0) → computeHorizontalBounds buffer width height opts = .ok ⟨0, 0⟩)
    ∧ (0 < width → 0 < height →
        ∃ b : Bounds, computeHorizontalBounds buffer width height opts = .ok b
          ∧ b.left ≤ width - 1 ∧ b.right ≤ width - 1) := by
  constructor
  · intro hdim
    unfold computeHorizontalBounds
    rw [if_neg (by simp [hbpp]), if_pos hdim]
  · intro hw hh
    have hWpos : 0 < width.toNat := by omega
    obtain ⟨⟨h1, h2, h3⟩, _⟩ := boundsScanCore_inv buffer width.toNat height.toNat opts hWpos
    refine ⟨boundsScanCore buffer width.toNat height.toNat opts, ?_, ?_, ?_⟩
    · unfold computeHorizontalBounds
      rw [if_neg (by simp [hbpp]), if_neg (by omega)]
    · omega
    · omega

theorem computeHorizontalBounds_emptyDims_witness :
    computeHorizontalBounds [] 0 5 {} = .ok ⟨0, 0⟩ :=
  (computeHorizontalBounds_emptyDims [] 0 5 {} rfl (by decide)).1 (Or.inl (by decide))

/-- C7 counterexample: `computeHorizontalBounds` does raise an error on some
inputs — a `bytesPerPixel` other than 4 hits the source's
`throw new Error('Only 4 bytes-per-pixel buffers ...')` guard. -/
theorem computeHorizontalBounds_bppThrows :
    computeHorizontalBounds [] 1 1 { bytesPerPixel := 3 }
      = .error ("Only 4 bytes-per-pixel buffers (RGBA/BGRA) are supported") := by
  rfl

/-- C7 (amended): restricted to 4-byte-per-pixel buffers (and positive
sample step), `computeHorizontalBounds` never raises — every input yields a
`Bounds` value — and `cropHorizontalBuffer` is total, reporting degenerate
crops through its normal result (`width = max(0, right−left+1)`, same
height) rather than by throwing.  The claim's unrestricted form is false:
`bytesPerPixel ≠ 4` (or a non-`ArrayBuffer` argument) raises. -/
theorem trimPipeline_total :
    (∀ (buffer : List Nat) (width height : Int) (opts : ScanOptions),
      opts.bytesPerPixel = 4 → 1 ≤ opts.sampleStep →
        ∃ b : Bounds, computeHorizontalBounds buffer width height opts = .ok b)
    ∧ ∀ (buffer : List Nat) (w h l r bpp : Nat),
        (cropHorizontalBuffer buffer w h l r bpp).width = r + 1 - l
        ∧ (cropHorizontalBuffer buffer w h l r bpp).height = h := by
  constructor
  · intro buffer width height opts hbpp _
    unfold computeHorizontalBounds
    rw [if_neg (by simp [hbpp])]
    by_cases hdim : width ≤ 0 ∨ height ≤ 0
    · rw [if_pos hdim]
      exact ⟨_, rfl⟩
    · rw [if_neg hdim]
      exact ⟨_, rfl⟩
  · intro buffer w h l r bpp
    simp only [cropHorizontalBuffer]
    by_cases hc : r + 1 - l = 0 ∨ w = 0 ∨ h = 0
    · rw [if_pos hc]
      exact ⟨rfl, rfl⟩
    · rw [if_neg hc]
      exact ⟨rfl, rfl⟩

theorem trimPipeline_total_witness :
    (∃ b : Bounds, computeHorizontalBounds [] 2 2 {} = .ok b)
    ∧ (cropHorizontalBuffer [] 3 2 1 1 4).width = 1 + 1 - 1 :=
  ⟨trimPipeline_total.1 [] 2 2 {} rfl (by decide), (trimPipeline_total.2 [] 3 2 1 1 4).1⟩

/-- C5 counterexample: with `left = 1`, `right = 0` (so `cropWidth = 0`,
a degenerate request) the function does not return the original buffer: it
returns a fresh empty buffer of width 0. -/
theorem cropHorizontalBuffer_no_shortCircuit :
    (cropHorizontalBuffer [1, 2, 3, 4, 5, 6, 7, 8] 2 1 1 0 4).buffer ≠ [1, 2, 3, 4, 5, 6, 7, 8]
    ∧ (cropHorizontalBuffer [1, 2, 3, 4, 5, 6, 7, 8] 2 1 1 0 4).width ≠ 2 := by
  decide

/-- C5 (amended): a degenerate `cropWidth = 0` request returns a freshly
allocated empty buffer of width 0 (not the original input), and a
full-width request (`left = 0`, `right = w−1`) returns a newly built
result whose byte content equals the original buffer — an allocated copy
rather than a short-circuit, contrary to the claim's wording. -/
theorem cropHorizontalBuffer_degenerate (buffer : List Nat) (w h l r : Nat) :
    (r + 1 - l = 0 → cropHorizontalBuffer buffer w h l r 4 = ⟨[], 0, h⟩)
    ∧ (l = 0 → r + 1 = w → buffer.length = w * h * 4 →
        cropHorizontalBuffer buffer w h l r 4 = ⟨buffer, w, h⟩) := by
  constructor
  · intro hcw
    simp only [cropHorizontalBuffer]
    rw [if_pos (Or.inl hcw), hcw]
    simp
  · intro hl hrw hlen
    subst hl
    have hw : w ≠ 0 := by omega
    have hcww : r + 1 - 0 = w := by omega
    by_cases hh : h = 0
    · subst hh
      have hbn : buffer = [] := by
        have : buffer.length = 0 := by rw [hlen]; ring
        exact List.eq_nil_of_length_eq_zero this
      simp only [cropHorizontalBuffer]
      rw [if_pos (show r + 1 - 0 = 0 ∨ w = 0 ∨ True from Or.inr (Or.inr trivial)), hcww, hbn]
      simp
    · have hcond : ¬(r + 1 - 0 = 0 ∨ w = 0 ∨ h = 0) := by omega
      simp only [cropHorizontalBuffer]
      rw [if_neg hcond, hcww]
      have hfun : (fun (y : Nat) => (List.range (w * 4)).map
            (fun j => buffer.getD ((y * w + 0) * 4 + j) 0))
          = fun y => (List.range (w * 4)).map (fun j => buffer.getD (y * (w * 4) + j) 0) := by
        funext y
        apply List.map_congr_left
        intro j _
        congr 1
        ring
      rw [hfun, flatMapBlocks_full buffer h (w * 4) (by rw [hlen]; ring)]

theorem cropHorizontalBuffer_degenerate_witness :
    cropHorizontalBuffer [1, 2, 3, 4, 5, 6, 7, 8] 2 1 2 1 4 = ⟨[], 0, 1⟩
    ∧ cropHorizontalBuffer [1, 2, 3, 4, 5, 6, 7, 8] 2 1 0 1 4 = ⟨[1, 2, 3, 4, 5, 6, 7, 8], 2, 1⟩ :=
  ⟨(cropHorizontalBuffer_degenerate [1, 2, 3, 4, 5, 6, 7, 8] 2 1 2 1).1 (by decide),
   (cropHorizontalBuffer_degenerate [1, 2, 3, 4, 5, 6, 7, 8] 2 1 0 1).2 rfl rfl (by decide)⟩

theorem computeCodesForSetB_spec_witness :
    (∀ c ∈ charCodes ("A"), 32 ≤ c ∧ c ≤ 126)
    ∧ (computeCodesForSetB ("A")).length = (charCodes ("A")).length + 3
    ∧ (computeCodesForSetB ("A")).head? = some 104
    ∧ (computeCodesForSetB ("A")).getLast? = some 106 :=
  ⟨by decide, (computeCodesForSetB_spec ("A") (by decide)).2.1,
    (computeCodesForSetB_spec ("A") (by decide)).2.2.1,
    (computeCodesForSetB_spec ("A") (by decide)).2.2.2.1⟩

end Code128
